import Mathlib

/-!
Shallow embedding of the newspaper_boy search-aggregation-and-extraction
pipeline (src/newspaper_boy/serper.py and src/newspaper_boy/playwright_scrape.py)
and proofs about its claimed properties.

Modelling conventions:
- Python strings are Lean `String` (character counts agree with Python `len`).
- UTC datetimes are modelled as integer microseconds since an arbitrary
  midnight-aligned epoch (`Micros`); Python `timedelta` arithmetic is integer
  arithmetic and `replace(hour=0, minute=0, second=0, microsecond=0)` on a
  UTC-aware datetime is flooring to a multiple of a day.
- External collaborators (the `dateutil` absolute-date parser, the HTTP
  transport, the Playwright page queries, `urlparse`, `uuid`) are parameters
  of the embedded functions; an exception raised by a collaborator and caught
  by the code is modelled as `none` / `Except.error`.
-/

/-! ## Python string primitives -/

/-- Characters treated as whitespace by Python `str.strip()` (ASCII range)
and by the regex class in the relative-date patterns. -/
def isPyWS (c : Char) : Bool :=
  c = ' ' || c = '\t' || c = '\n' || c = '\r' || c = '\x0b' || c = '\x0c'

/-- Python `s.strip()`: drop leading and trailing whitespace. -/
def pyStrip (s : String) : String :=
  String.mk (((s.data.dropWhile isPyWS).reverse.dropWhile isPyWS).reverse)

/-- Python truthiness of an optional string: `None` and `""` are falsy. -/
def pyTruthy : Option String → Bool
  | none => false
  | some s => !(s = "")

/-- Python `a or b` on optional strings: yields `b` when `a` is falsy. -/
def pyOr (a b : Option String) : Option String :=
  if pyTruthy a then a else b

/-- Drop a literal character sequence from the front of a list, failing when
the list does not start with it. -/
def dropLit : List Char → List Char → Option (List Char)
  | [], s => some s
  | _ :: _, [] => none
  | c :: cs, d :: ds => if c = d then dropLit cs ds else none

/-- Whether `pat` occurs as a contiguous subsequence of `s`
(Python `pat in s`). -/
def containsSeq (pat : List Char) : List Char → Bool
  | [] => pat.isEmpty
  | c :: rest => pat.isPrefixOf (c :: rest) || containsSeq pat rest

/-! ## DateNormalizer (`_normalize_serper_date` in serper.py) -/

/-- UTC datetime as microseconds since a midnight-aligned epoch. -/
abbrev Micros := Int

def usPerMinute : Micros := 60000000

def usPerHour : Micros := 3600000000

def usPerDay : Micros := 86400000000

/-- Python `dt.replace(hour=0, minute=0, second=0, microsecond=0)` on a
UTC-aware datetime: floor to the enclosing day boundary. -/
def floorToDay (t : Micros) : Micros := (t / usPerDay) * usPerDay

/-- Result of a successful `dateutil.parser.parse` call, after the code's
timezone normalisation (convert to UTC when aware, assume UTC when naive):
the parsed calendar year together with the UTC instant. -/
structure ParsedDate where
  year : Int
  utc : Micros
deriving DecidableEq, Repr

/-- Numeric value of a digit string (the regex group `(\d+)`). -/
def digitsVal (ds : List Char) : Nat :=
  ds.foldl (fun acc c => acc * 10 + (c.toNat - 48)) 0

/-- Python `re.match` against the pattern `(\d+)\s*<unit>s? ago`: match at the
start of the string a digit group, optional whitespace, the unit word, an
optional plural `s` and the literal tail, returning the digit group's value. -/
def matchAgo (unit : String) (s : String) : Option Nat :=
  let ds := s.data.takeWhile Char.isDigit
  let rest := s.data.dropWhile Char.isDigit
  if ds.isEmpty then none
  else
    match dropLit unit.data (rest.dropWhile isPyWS) with
    | none => none
    | some r3 =>
      let r4 := match r3 with
        | 's' :: t => t
        | t => t
      if " ago".data.isPrefixOf r4 then some (digitsVal ds) else none

/-- The relative-pattern tail of `_normalize_serper_date`: the three
`<N> <unit>s ago` patterns in source order, then the `yesterday` substring
test, then the exact now-synonyms, else `None`. Arithmetic here is
unbounded, adequate for the in-range uses of the other claims;
`relativeChainChecked` below models Python's bounded timedelta/datetime
arithmetic and its escaping OverflowError. -/
def relativeChain (r : String) (now : Micros) : Option Micros :=
  match matchAgo "minute" r with
  | some n => some (now - (n : Int) * usPerMinute)
  | none =>
  match matchAgo "hour" r with
  | some n => some (now - (n : Int) * usPerHour)
  | none =>
  match matchAgo "day" r with
  | some n => some (now - (n : Int) * usPerDay)
  | none =>
  if containsSeq "yesterday".data r.data then
    some (floorToDay (now - usPerDay))
  else if r = "just now" || r = "moments ago" || r = "seconds ago" then
    some now
  else
    none

/-- Python `s.lower()` (ASCII case mapping suffices for the inputs at
hand). -/
def pyLower (s : String) : String := String.mk (s.data.map Char.toLower)

/-- The key the code hands to `dateutil_parser.parse` and to the pattern
matcher: the raw string stripped then lowercased. -/
def normKey (r0 : String) : String := pyLower (pyStrip r0)

/-- `_normalize_serper_date(raw, reference_dt)` from serper.py, parameterised
by the external `dateutil` parser `parseAbs` (`none` models the caught
`ValueError`/`TypeError`/`OverflowError`). A successful absolute parse is
used only when its year is at least 1000; otherwise control falls through to
the relative patterns. -/
def normalize_serper_date (parseAbs : String → Option ParsedDate)
    (raw : Option String) (reference_dt : Micros) : Option Micros :=
  match raw with
  | none => none
  | some r0 =>
    if r0 = "" then none
    else
      let r := normKey r0
      match parseAbs r with
      | some p =>
        if 1000 ≤ p.year then some p.utc else relativeChain r reference_dt
      | none => relativeChain r reference_dt

/-! ## Bounded Python date arithmetic (for claim C4) -/

/-- CPython `timedelta` bounds in microseconds: `timedelta.min` is
-999999999 days and `timedelta.max` is 999999999 days, 23:59:59.999999. -/
def tdMinUs : Int := -86399999913600000000

def tdMaxUs : Int := 86399999999999999999

/-- CPython `datetime` upper bound in microseconds from the epoch
0001-01-01 00:00:00 (the ordinal of 9999-12-31 is 3652059):
`datetime.max - datetime.min` is 315537897599.999999 seconds; `datetime.min`
is 0 in this epoch. -/
def pyDateTimeMaxUs : Int := 315537897599999999

/-- An uncaught Python exception escaping `_normalize_serper_date`. -/
inductive PyRaise where
  | overflow
deriving DecidableEq, Repr

/-- Outcome of a Python computation that may raise an uncaught exception. -/
inductive PyResult (α : Type) where
  | ok (v : α)
  | raised (e : PyRaise)
deriving DecidableEq, Repr

/-- Python `delta * n` on a timedelta: raises OverflowError when the result
leaves the timedelta range. -/
def checkedTimedeltaMul (unit : Micros) (n : Nat) : PyResult Micros :=
  let v := (n : Int) * unit
  if tdMinUs ≤ v ∧ v ≤ tdMaxUs then .ok v else .raised .overflow

/-- Python `now - td` on datetimes: raises OverflowError when the result
leaves the datetime range. -/
def checkedDtSub (now td : Micros) : PyResult Micros :=
  let r := now - td
  if 0 ≤ r ∧ r ≤ pyDateTimeMaxUs then .ok r else .raised .overflow

/-- The relative-pattern tail of `_normalize_serper_date` with Python's
bounded timedelta/datetime arithmetic. These returns sit outside the
function's try/except, so an overflow here escapes as an exception
(`PyResult.raised`). -/
def relativeChainChecked (r : String) (now : Micros) :
    PyResult (Option Micros) :=
  match matchAgo "minute" r with
  | some n =>
    match checkedTimedeltaMul usPerMinute n with
    | .raised e => .raised e
    | .ok td =>
      match checkedDtSub now td with
      | .raised e => .raised e
      | .ok v => .ok (some v)
  | none =>
  match matchAgo "hour" r with
  | some n =>
    match checkedTimedeltaMul usPerHour n with
    | .raised e => .raised e
    | .ok td =>
      match checkedDtSub now td with
      | .raised e => .raised e
      | .ok v => .ok (some v)
  | none =>
  match matchAgo "day" r with
  | some n =>
    match checkedTimedeltaMul usPerDay n with
    | .raised e => .raised e
    | .ok td =>
      match checkedDtSub now td with
      | .raised e => .raised e
      | .ok v => .ok (some v)
  | none =>
  if containsSeq "yesterday".data r.data then
    match checkedDtSub now usPerDay with
    | .raised e => .raised e
    | .ok v => .ok (some (floorToDay v))
  else if r = "just now" || r = "moments ago" || r = "seconds ago" then
    .ok (some now)
  else
    .ok none

/-- `_normalize_serper_date` with the bounded arithmetic of
`relativeChainChecked`: everything inside the try/except (the `dateutil`
parse and the timezone normalisation) is the `parseAbs` parameter whose
failure is caught (`none`), but the relative-pattern and `yesterday`
returns are outside it and can raise. -/
def normalize_serper_date_checked (parseAbs : String → Option ParsedDate)
    (raw : Option String) (reference_dt : Micros) :
    PyResult (Option Micros) :=
  match raw with
  | none => .ok none
  | some r0 =>
    if r0 = "" then .ok none
    else
      let r := normKey r0
      match parseAbs r with
      | some p =>
        if 1000 ≤ p.year then .ok (some p.utc)
        else relativeChainChecked r reference_dt
      | none => relativeChainChecked r reference_dt

/-! ## Claims C4 and C5: DateNormalizer -/

/-- A reference instant inside the datetime range: 2023-11-14 in the
0001-01-01 epoch. -/
def demoNowUs : Micros := 63839750400000000

/-- A parser stand-in returning a year below 1000 for one key. -/
def demoParse999 : String → Option ParsedDate := fun s =>
  if s = "june 1, 0999" then some ⟨999, 31500000000000000⟩ else none

/-- A parser stand-in returning an in-range date for one key. -/
def demoParse2020 : String → Option ParsedDate := fun s =>
  if s = "march 5, 2020" then some ⟨2020, 63718531200000000⟩ else none

/-- C4: the claimed never-raises totality is the code's documented intent
(the docstring says "Returns None if parsing fails" and the try/except
explicitly catches OverflowError), but the relative-pattern return at
serper.py line 58 and the `yesterday` return at line 61 sit outside the
try/except, and Python's timedelta is bounded to 999999999 days: on
"1000000000 days ago" the multiplication `timedelta(days=1) * 1000000000`
overflows and the exception escapes, contradicting the claim. The bounded
model shows the escape at the failing input — which takes the day-pattern
path, as the second conjunct shows — while ordinary relative, garbage and
empty inputs compute or degrade as claimed, and the year-1000 guard behaves
as claimed (a year-999 parse is rejected and falls through to `None`, an
in-range parse is accepted). -/
theorem dateNormalizer_raises_on_overflow :
    normalize_serper_date_checked (fun _ => none)
        (some "1000000000 days ago") demoNowUs = .raised .overflow ∧
    matchAgo "day" "1000000000 days ago" = some 1000000000 ∧
    normalize_serper_date_checked (fun _ => none) (some "3 days ago")
        demoNowUs = .ok (some (demoNowUs - 3 * usPerDay)) ∧
    normalize_serper_date_checked (fun _ => none) (some "total garbage!")
        demoNowUs = .ok none ∧
    normalize_serper_date_checked (fun _ => none) (some "") demoNowUs
      = .ok none ∧
    normalize_serper_date_checked demoParse999 (some "June 1, 0999")
        demoNowUs = .ok none ∧
    normalize_serper_date_checked demoParse2020 (some "March 5, 2020")
        demoNowUs = .ok (some 63718531200000000) := by
  refine ⟨?_, ?_, ?_, ?_, ?_, ?_, ?_⟩ <;> decide

/-- C5: for every reference time `T` (with the external absolute parser
failing on these non-absolute strings, as `dateutil` does):
normalize of "3 hours ago" is `T` minus 3 hours; normalize of "yesterday" is
midnight UTC of the day before `T`'s date; normalize of "moments ago" is `T`
unchanged. -/
theorem normalize_relative_examples
    (parseAbs : String → Option ParsedDate) (T : Micros)
    (h1 : parseAbs "3 hours ago" = none)
    (h2 : parseAbs "yesterday" = none)
    (h3 : parseAbs "moments ago" = none) :
    normalize_serper_date parseAbs (some "3 hours ago") T
      = some (T - 3 * usPerHour) ∧
    normalize_serper_date parseAbs (some "yesterday") T
      = some ((T / usPerDay - 1) * usPerDay) ∧
    normalize_serper_date parseAbs (some "moments ago") T = some T := by
  have k1 : normKey "3 hours ago" = "3 hours ago" := by decide
  have k2 : normKey "yesterday" = "yesterday" := by decide
  have k3 : normKey "moments ago" = "moments ago" := by decide
  refine ⟨?_, ?_, ?_⟩
  · simp only [normalize_serper_date, k1, h1,
      if_neg (by decide : ¬("3 hours ago" = ""))]
    simp [relativeChain, show matchAgo "minute" "3 hours ago" = none by decide,
      show matchAgo "hour" "3 hours ago" = some 3 by decide]
  · simp only [normalize_serper_date, k2, h2,
      if_neg (by decide : ¬("yesterday" = ""))]
    have hrel : relativeChain "yesterday" T
        = some (floorToDay (T - usPerDay)) := by
      simp [relativeChain, show matchAgo "minute" "yesterday" = none by decide,
        show matchAgo "hour" "yesterday" = none by decide,
        show matchAgo "day" "yesterday" = none by decide,
        show containsSeq "yesterday".data "yesterday".data = true by decide]
    rw [hrel]
    unfold floorToDay
    have hsub : T - usPerDay = T + (-1) * usPerDay := by ring
    rw [hsub, Int.add_mul_ediv_right _ _ (by decide : usPerDay ≠ 0)]
    norm_num
    exact Or.inl (by ring)
  · simp only [normalize_serper_date, k3, h3,
      if_neg (by decide : ¬("moments ago" = ""))]
    simp [relativeChain, show matchAgo "minute" "moments ago" = none by decide,
      show matchAgo "hour" "moments ago" = none by decide,
      show matchAgo "day" "moments ago" = none by decide,
      show containsSeq "yesterday".data "moments ago".data = false by decide]

/-- Witness for C5 at a concrete reference time. -/
theorem normalize_relative_examples_witness :
    normalize_serper_date (fun _ => none) (some "3 hours ago") 200000000000
      = some 189200000000 ∧
    normalize_serper_date (fun _ => none) (some "yesterday") 200000000000
      = some 86400000000 ∧
    normalize_serper_date (fun _ => none) (some "moments ago") 200000000000
      = some 200000000000 := by
  have h := normalize_relative_examples (fun _ => none) 200000000000 rfl rfl rfl
  refine ⟨?_, ?_, h.2.2⟩
  · rw [h.1]; norm_num [usPerHour]
  · rw [h.2.1]; decide

/-! ## CitationBuilder (`_serper_results_to_citations` in serper.py) -/

/-- A raw search hit as consumed by the builder: the dict keys the code
reads, each possibly absent. -/
structure Hit where
  link : Option String := none
  url : Option String := none
  title : Option String := none
  date : Option String := none
  source : Option String := none
  siteName : Option String := none
  snippet : Option String := none
  imageUrl : Option String := none
deriving DecidableEq, Repr

/-- `item.get("link") or item.get("url") or ""`. -/
def hitUrl (h : Hit) : String := (pyOr h.link h.url).getD ""

/-- `item.get("source") or item.get("siteName")`. -/
def hitPublisher (h : Hit) : Option String := pyOr h.source h.siteName

/-- The open metadata map: keys written by the builder and by the scrape
merge, each optional. -/
structure Metadata where
  original_date_string : Option String := none
  snippet : Option String := none
  imageUrl : Option String := none
  serper_snippet : Option String := none
  full_text_scraped : Option Bool := none
  scraped_word_count : Option Nat := none
deriving DecidableEq, Repr

/-- `access_date` is written as an ISO string by the builder and as a
datetime by the scrape merge. -/
inductive AccessStamp where
  | iso (s : String)
  | ts (t : Micros)
deriving DecidableEq, Repr

/-- The Citation record (types.py `Citation`, with the fields as the two
writers actually populate them). -/
structure Citation where
  citation_id : String
  source_type : String
  title : Option String
  date : Option Micros
  url : String
  access_date : AccessStamp
  jurisdiction : Option String
  publisher : Option String
  publication : Option String
  author : Option String
  metadata : Option Metadata
  media_type : String
deriving DecidableEq, Repr

/-- Python `f"[idx:04d]"`: decimal digits zero-padded to width at least 4. -/
def pad4 (n : Nat) : String :=
  let s := toString n
  String.mk (List.replicate (4 - s.length) '0') ++ s

/-- `source_type[:1].upper()`: the uppercased first character, empty for the
empty string. -/
def typeInitial (st : String) : String :=
  match st.data with
  | [] => ""
  | c :: _ => String.mk [c.toUpper]

/-- The citation built for the hit at (1-based) input position `idx`, before
the publisher-exclusion test. -/
def mkCitation (parseAbs : String → Option ParsedDate)
    (source_type access_date : String) (reference_dt : Micros)
    (idx : Nat) (h : Hit) : Citation :=
  { citation_id := typeInitial source_type ++ pad4 idx
    source_type := source_type
    title := h.title
    date := normalize_serper_date parseAbs h.date reference_dt
    url := hitUrl h
    access_date := .iso access_date
    jurisdiction := none
    publisher := hitPublisher h
    publication := none
    author := none
    metadata :=
      if pyTruthy h.date || pyTruthy h.snippet || pyTruthy h.imageUrl then
        some { original_date_string := h.date, snippet := h.snippet,
               imageUrl := h.imageUrl }
      else none
    media_type := if source_type = "videos" then "video" else "text" }

/-- `publisher not in exclude_publishers` negated: the publisher value is a
string present in the exclusion list (`None` is never in a list of
strings). -/
def pubExcluded (h : Hit) (excl : List String) : Bool :=
  match hitPublisher h with
  | none => false
  | some p => decide (p ∈ excl)

/-- The builder's `for idx, item in enumerate(results, start=1)` loop: `idx`
advances on every input item, skipped or not; a skipped item is one whose
URL is empty or already seen; the URL is recorded as seen before the
publisher-exclusion test drops the item. -/
def citationsLoop (parseAbs : String → Option ParsedDate)
    (st ad : String) (ref : Micros) (excl : List String) :
    Nat → List String → List Hit → List Citation
  | _, _, [] => []
  | idx, seen, h :: rest =>
    let url := hitUrl h
    if url = "" ∨ url ∈ seen then
      citationsLoop parseAbs st ad ref excl (idx + 1) seen rest
    else
      let cit := mkCitation parseAbs st ad ref idx h
      if pubExcluded h excl then
        citationsLoop parseAbs st ad ref excl (idx + 1) (url :: seen) rest
      else
        cit :: citationsLoop parseAbs st ad ref excl (idx + 1) (url :: seen) rest

/-- `_serper_results_to_citations(results, source_type, access_date,
reference_dt, exclude_publishers)` with the default-filling of
`access_date`/`reference_dt` already resolved by the caller. -/
def serper_results_to_citations (parseAbs : String → Option ParsedDate)
    (results : List Hit) (source_type access_date : String)
    (reference_dt : Micros) (exclude_publishers : List String) :
    List Citation :=
  citationsLoop parseAbs source_type access_date reference_dt
    exclude_publishers 1 [] results

/-! ## Claims C1, C2, C10: CitationBuilder -/

/-- Loop lemma: every emitted citation is `mkCitation` of the input hit at a
definite position, carrying the running input index. -/
theorem citationsLoop_mem (parseAbs : String → Option ParsedDate)
    (st ad : String) (ref : Micros) (excl : List String) :
    ∀ (hits : List Hit) (idx : Nat) (seen : List String) (c : Citation),
      c ∈ citationsLoop parseAbs st ad ref excl idx seen hits →
      ∃ k, ∃ hk : k < hits.length,
        c = mkCitation parseAbs st ad ref (idx + k) (hits.get ⟨k, hk⟩) := by
  intro hits
  induction hits with
  | nil => intro idx seen c hc; simp [citationsLoop] at hc
  | cons h rest ih =>
    intro idx seen c hc
    simp only [citationsLoop] at hc
    split at hc
    · obtain ⟨k, hk, hceq⟩ := ih (idx + 1) seen c hc
      refine ⟨k + 1, Nat.succ_lt_succ hk, ?_⟩
      rw [hceq]
      simp only [List.get_cons_succ]
      congr 1
      omega
    · split at hc
      · obtain ⟨k, hk, hceq⟩ := ih (idx + 1) (hitUrl h :: seen) c hc
        refine ⟨k + 1, Nat.succ_lt_succ hk, ?_⟩
        rw [hceq]
        simp only [List.get_cons_succ]
        congr 1
        omega
      · rcases List.mem_cons.mp hc with hceq | hmem
        · exact ⟨0, Nat.succ_pos _, by simpa using hceq⟩
        · obtain ⟨k, hk, hceq⟩ := ih (idx + 1) (hitUrl h :: seen) c hmem
          refine ⟨k + 1, Nat.succ_lt_succ hk, ?_⟩
          rw [hceq]
          simp only [List.get_cons_succ]
          congr 1
          omega

/-- Loop invariant: emitted citations have URLs outside `seen` and nonempty,
and the emitted URL list has no duplicates. -/
theorem citationsLoop_url_inv (parseAbs : String → Option ParsedDate)
    (st ad : String) (ref : Micros) (excl : List String) :
    ∀ (hits : List Hit) (idx : Nat) (seen : List String),
      (∀ c ∈ citationsLoop parseAbs st ad ref excl idx seen hits,
          c.url ∉ seen ∧ c.url ≠ "") ∧
      ((citationsLoop parseAbs st ad ref excl idx seen hits).map
          (fun c => c.url)).Nodup := by
  intro hits
  induction hits with
  | nil => intro idx seen; simp [citationsLoop]
  | cons h rest ih =>
    intro idx seen
    simp only [citationsLoop]
    split
    · exact ih (idx + 1) seen
    · rename_i hguard
      push_neg at hguard
      obtain ⟨hne, hnotseen⟩ := hguard
      split
      · refine ⟨fun c hc => ?_, (ih (idx + 1) (hitUrl h :: seen)).2⟩
        have hinv := (ih (idx + 1) (hitUrl h :: seen)).1 c hc
        exact ⟨fun hm => hinv.1 (List.mem_cons_of_mem _ hm), hinv.2⟩
      · constructor
        · intro c hc
          rcases List.mem_cons.mp hc with hceq | hmem
          · rw [hceq]
            exact ⟨hnotseen, hne⟩
          · have hinv := (ih (idx + 1) (hitUrl h :: seen)).1 c hmem
            exact ⟨fun hm => hinv.1 (List.mem_cons_of_mem _ hm), hinv.2⟩
        · simp only [List.map_cons, List.nodup_cons]
          refine ⟨fun hmem => ?_, (ih (idx + 1) (hitUrl h :: seen)).2⟩
          obtain ⟨c, hc, hcu⟩ := List.mem_map.mp hmem
          have hinv := (ih (idx + 1) (hitUrl h :: seen)).1 c hc
          have hcu2 : c.url = hitUrl h := hcu
          exact hinv.1 (hcu2 ▸ List.mem_cons_self _ _)

/-- Loop lemma: when the first input occurrence of URL `u` is a hit whose
publisher is not excluded, the built citation of that hit is emitted and it
is the only emitted citation with URL `u`. -/
theorem citationsLoop_first_kept (parseAbs : String → Option ParsedDate)
    (st ad : String) (ref : Micros) (excl : List String)
    (u : String) (hFirst : Hit) (hu : u ≠ "") (hurl : hitUrl hFirst = u)
    (hkeep : pubExcluded hFirst excl = false) :
    ∀ (pre post : List Hit) (idx : Nat) (seen : List String),
      (∀ h0 ∈ pre, hitUrl h0 ≠ u) → u ∉ seen →
      mkCitation parseAbs st ad ref (idx + pre.length) hFirst ∈
        citationsLoop parseAbs st ad ref excl idx seen (pre ++ hFirst :: post) ∧
      ((citationsLoop parseAbs st ad ref excl idx seen
          (pre ++ hFirst :: post)).filter (fun c => c.url = u)).length = 1 := by
  intro pre
  induction pre with
  | nil =>
    intro post idx seen hpre hseen
    simp only [List.nil_append, citationsLoop, hurl]
    rw [if_neg (by simp [hu, hseen] : ¬(u = "" ∨ u ∈ seen))]
    rw [if_neg (by simp [hkeep])]
    constructor
    · simp
    · have hnil : (citationsLoop parseAbs st ad ref excl (idx + 1) (u :: seen)
          post).filter (fun c => c.url = u) = [] := by
        refine List.filter_eq_nil_iff.mpr fun c hc => ?_
        have hinv := (citationsLoop_url_inv parseAbs st ad ref excl post
          (idx + 1) (u :: seen)).1 c hc
        simp only [decide_eq_true_eq]
        intro hcu
        exact hinv.1 (hcu ▸ List.mem_cons_self _ _)
      simp [List.filter_cons, mkCitation, hurl, hnil]
  | cons h0 pre ih =>
    intro post idx seen hpre hseen
    have hne0 : hitUrl h0 ≠ u := hpre h0 (List.mem_cons_self _ _)
    have hpre2 : ∀ h1 ∈ pre, hitUrl h1 ≠ u :=
      fun h1 hm => hpre h1 (List.mem_cons_of_mem _ hm)
    have hlen : idx + (h0 :: pre).length = (idx + 1) + pre.length := by
      simp [List.length_cons]; omega
    simp only [List.cons_append, citationsLoop]
    split
    · have hres := ih post (idx + 1) seen hpre2 hseen
      exact ⟨by rw [hlen]; exact hres.1, hres.2⟩
    · have hseen2 : u ∉ hitUrl h0 :: seen := by
        simp only [List.mem_cons]
        rintro (hq | hq)
        · exact hne0 hq.symm
        · exact hseen hq
      split
      · have hres := ih post (idx + 1) (hitUrl h0 :: seen) hpre2 hseen2
        exact ⟨by rw [hlen]; exact hres.1, hres.2⟩
      · have hres := ih post (idx + 1) (hitUrl h0 :: seen) hpre2 hseen2
        constructor
        · exact List.mem_cons_of_mem _ (by rw [hlen]; exact hres.1)
        · simp only [List.filter_cons]
          rw [if_neg (by simpa using hne0)]
          exact hres.2

/-- Loop lemma: when the first input occurrence of URL `u` is a hit whose
publisher is excluded, no citation with URL `u` is emitted at all (the URL is
marked seen before the exclusion test, so later duplicates are skipped). -/
theorem citationsLoop_excluded_first (parseAbs : String → Option ParsedDate)
    (st ad : String) (ref : Micros) (excl : List String)
    (u : String) (hFirst : Hit) (hu : u ≠ "") (hurl : hitUrl hFirst = u)
    (hexcl : pubExcluded hFirst excl = true) :
    ∀ (pre post : List Hit) (idx : Nat) (seen : List String),
      (∀ h0 ∈ pre, hitUrl h0 ≠ u) → u ∉ seen →
      ∀ c ∈ citationsLoop parseAbs st ad ref excl idx seen
          (pre ++ hFirst :: post), c.url ≠ u := by
  intro pre
  induction pre with
  | nil =>
    intro post idx seen hpre hseen c hc
    simp only [List.nil_append, citationsLoop, hurl] at hc
    rw [if_neg (by simp [hu, hseen] : ¬(u = "" ∨ u ∈ seen))] at hc
    rw [if_pos hexcl] at hc
    have hinv := (citationsLoop_url_inv parseAbs st ad ref excl post
      (idx + 1) (u :: seen)).1 c hc
    intro hcu
    exact hinv.1 (hcu ▸ List.mem_cons_self _ _)
  | cons h0 pre ih =>
    intro post idx seen hpre hseen c hc
    have hne0 : hitUrl h0 ≠ u := hpre h0 (List.mem_cons_self _ _)
    have hpre2 : ∀ h1 ∈ pre, hitUrl h1 ≠ u :=
      fun h1 hm => hpre h1 (List.mem_cons_of_mem _ hm)
    have hseen2 : u ∉ hitUrl h0 :: seen := by
      simp only [List.mem_cons]
      rintro (hq | hq)
      · exact hne0 hq.symm
      · exact hseen hq
    simp only [List.cons_append, citationsLoop] at hc
    split at hc
    · exact ih post (idx + 1) seen hpre2 hseen c hc
    · split at hc
      · exact ih post (idx + 1) (hitUrl h0 :: seen) hpre2 hseen2 c hc
      · rcases List.mem_cons.mp hc with hceq | hmem
        · rw [hceq]
          exact hne0
        · exact ih post (idx + 1) (hitUrl h0 :: seen) hpre2 hseen2 c hmem

/-- Concrete hits used in counterexamples and witnesses. -/
def hitNoUrl : Hit := { title := some "no url" }

def hitPX : Hit := { link := some "https://e.x/a", source := some "PX" }

def hitPY : Hit := { url := some "https://e.x/a", source := some "PY" }

def hitPQ : Hit := { link := some "https://e.x/b", source := some "PQ" }

/-- C1 counterexample: a batch whose first hit has no URL (and is skipped)
still consumes sequence number 1, so the single kept citation carries
sequence number 2, not 1 — the IDs of the returned citations are not dense
over kept items. -/
theorem citation_id_dense_counterexample :
    (serper_results_to_citations (fun _ => none) [hitNoUrl, hitPX]
        "news" "2025-01-01" 0 []).map (fun c => c.citation_id)
      = ["N0002"] := by decide

/-- C1 (amended): every returned citation's citation_id is the uppercased
first letter of the source type followed by the zero-padded (width 4)
1-based position of its originating hit in the input batch; skipped hits
consume sequence numbers, so the k-th citation carries its hit's input
position, not k. -/
theorem citation_id_is_input_position
    (parseAbs : String → Option ParsedDate) (st ad : String) (ref : Micros)
    (excl : List String) (results : List Hit) (c : Citation)
    (hc : c ∈ serper_results_to_citations parseAbs results st ad ref excl) :
    ∃ k, ∃ hk : k < results.length,
      c.citation_id = typeInitial st ++ pad4 (1 + k) ∧
      c = mkCitation parseAbs st ad ref (1 + k) (results.get ⟨k, hk⟩) := by
  obtain ⟨k, hk, hceq⟩ :=
    citationsLoop_mem parseAbs st ad ref excl results 1 [] c hc
  exact ⟨k, hk, by rw [hceq]; rfl, hceq⟩

/-- Witness for the amended C1 at a concrete batch. -/
theorem citation_id_is_input_position_witness :
    ∃ k, ∃ hk : k < ([hitNoUrl, hitPX] : List Hit).length,
      (mkCitation (fun _ => none) "news" "2025-01-01" 0 2 hitPX).citation_id
          = typeInitial "news" ++ pad4 (1 + k) ∧
      mkCitation (fun _ => none) "news" "2025-01-01" 0 2 hitPX
        = mkCitation (fun _ => none) "news" "2025-01-01" 0 (1 + k)
            (([hitNoUrl, hitPX] : List Hit).get ⟨k, hk⟩) :=
  citation_id_is_input_position (fun _ => none) "news" "2025-01-01" 0 []
    [hitNoUrl, hitPX] _ (by decide)

/-- C2 counterexample: a batch of two hits sharing one URL where the first
occurrence's publisher is excluded keeps zero citations for that URL, not
exactly one. -/
theorem url_dedup_exactly_one_counterexample :
    serper_results_to_citations (fun _ => none) [hitPX, hitPY]
      "news" "2025-01-01" 0 ["PX"] = [] := by decide

/-- C2 (amended): within any returned citation batch `url` is a unique key
and never empty (hits with missing or empty URL are skipped entirely); and
whenever the first input occurrence of a URL `u` has a publisher that is not
in `exclude_publishers`, the builder keeps exactly one citation with URL `u`,
built from that first occurrence. -/
theorem url_unique_first_seen_kept
    (parseAbs : String → Option ParsedDate) (st ad : String) (ref : Micros)
    (excl : List String) :
    (∀ results : List Hit,
      ((serper_results_to_citations parseAbs results st ad ref excl).map
          (fun c => c.url)).Nodup ∧
      ∀ c ∈ serper_results_to_citations parseAbs results st ad ref excl,
        c.url ≠ "") ∧
    (∀ (pre post : List Hit) (hFirst : Hit) (u : String), u ≠ "" →
      hitUrl hFirst = u → (∀ h0 ∈ pre, hitUrl h0 ≠ u) →
      pubExcluded hFirst excl = false →
      mkCitation parseAbs st ad ref (pre.length + 1) hFirst ∈
        serper_results_to_citations parseAbs (pre ++ hFirst :: post)
          st ad ref excl ∧
      ((serper_results_to_citations parseAbs (pre ++ hFirst :: post)
          st ad ref excl).filter (fun c => c.url = u)).length = 1) := by
  constructor
  · intro results
    have hinv := citationsLoop_url_inv parseAbs st ad ref excl results 1 []
    exact ⟨hinv.2, fun c hc => (hinv.1 c hc).2⟩
  · intro pre post hFirst u hu hurl hpre hkeep
    have hres := citationsLoop_first_kept parseAbs st ad ref excl u hFirst
      hu hurl hkeep pre post 1 [] hpre (by simp)
    refine ⟨?_, hres.2⟩
    have e : pre.length + 1 = 1 + pre.length := by omega
    rw [e]
    exact hres.1

/-- Witness for the amended C2 at a concrete batch with one duplicated
URL. -/
theorem url_unique_first_seen_kept_witness :
    mkCitation (fun _ => none) "news" "2025-01-01" 0 1 hitPX ∈
      serper_results_to_citations (fun _ => none) [hitPX, hitPY]
        "news" "2025-01-01" 0 [] ∧
    ((serper_results_to_citations (fun _ => none) [hitPX, hitPY]
        "news" "2025-01-01" 0 []).filter
      (fun c => c.url = "https://e.x/a")).length = 1 := by
  have h := (url_unique_first_seen_kept (fun _ => none) "news" "2025-01-01"
      0 []).2 [] [hitPY] hitPX "https://e.x/a" (by decide) (by decide)
      (by simp) (by decide)
  simpa using h

/-- C10: the builder records a hit's URL as seen before applying the
publisher-exclusion test, so when the first input occurrence of URL `u` has
an excluded publisher, every later hit with URL `u` is skipped as a
duplicate and the batch yields zero citations with URL `u`. -/
theorem seen_recorded_before_exclusion
    (parseAbs : String → Option ParsedDate) (st ad : String) (ref : Micros)
    (excl : List String) (pre post : List Hit) (hFirst : Hit) (u : String)
    (hu : u ≠ "") (hurl : hitUrl hFirst = u)
    (hpre : ∀ h0 ∈ pre, hitUrl h0 ≠ u)
    (hexcl : pubExcluded hFirst excl = true) :
    (serper_results_to_citations parseAbs (pre ++ hFirst :: post)
        st ad ref excl).filter (fun c => c.url = u) = [] := by
  refine List.filter_eq_nil_iff.mpr fun c hc => ?_
  simp only [decide_eq_true_eq]
  exact citationsLoop_excluded_first parseAbs st ad ref excl u hFirst hu hurl
    hexcl pre post 1 [] hpre (by simp) c hc

/-- Witness for C10: a batch where the excluded publisher owns the first
occurrence of the duplicated URL yields no citation for that URL, while an
unrelated hit is still kept. -/
theorem seen_recorded_before_exclusion_witness :
    (serper_results_to_citations (fun _ => none) [hitPX, hitPY, hitPQ]
        "news" "2025-01-01" 0 ["PX"]).filter
      (fun c => c.url = "https://e.x/a") = [] ∧
    (serper_results_to_citations (fun _ => none) [hitPX, hitPY, hitPQ]
        "news" "2025-01-01" 0 ["PX"]).map (fun c => c.url)
      = ["https://e.x/b"] :=
  ⟨seen_recorded_before_exclusion (fun _ => none) "news" "2025-01-01" 0
      ["PX"] [] [hitPY, hitPQ] hitPX "https://e.x/a" (by decide) (by decide)
      (by simp) (by decide),
    by decide⟩

/-! ## ScrapeCoordinator (`process_citation` in playwright_scrape.py) -/

/-- The TextChunk record (types.py `TextChunk` plus the offset fields the
scrape code writes). -/
structure TextChunk where
  textchunk_id : String
  citation_id : String
  text : String
  «section» : String
  char_start : Nat
  char_end : Nat
deriving DecidableEq, Repr

/-- Python `text.split("\n\n")` specialised to the blank-line separator:
leftmost non-overlapping splitting, keeping empty tokens. -/
def splitBBAux : List Char → List Char → List (List Char)
  | [], acc => [acc.reverse]
  | '\n' :: '\n' :: rest, acc => acc.reverse :: splitBBAux rest []
  | c :: rest, acc => splitBBAux rest (c :: acc)

/-- Python `text.split("\n\n")`. -/
def pySplitBB (s : String) : List String :=
  (splitBBAux s.data []).map String.mk

/-- `[p.strip() for p in text.split("\n\n") if len(p.strip()) > 80]`. -/
def paragraphsOf (text : String) : List String :=
  ((pySplitBB text).map pyStrip).filter (fun p => p.length > 80)

/-- `sum(len(p) + 2 for p in paragraphs[:i])`: the running character offset
into the concatenated paragraph stream. -/
def chunkOffset (ps : List String) (i : Nat) : Nat :=
  ((ps.take i).map (fun p => p.length + 2)).sum

/-- Python `len(text.split())`: the number of maximal non-whitespace runs. -/
def wcAux : List Char → Bool → Nat
  | [], _ => 0
  | c :: rest, inw =>
    if isPyWS c then wcAux rest false
    else (if inw then 0 else 1) + wcAux rest true

def wordCountOf (t : String) : Nat := wcAux t.data false

/-- The chunk-building comprehension of `process_citation`: one TextChunk per
kept paragraph, with a fresh id (`uuid.uuid4()`, a parameter here), a
`para_<i+1>` section label and running character offsets. -/
def makeChunks (fresh : Nat → String) (cid : String) (text : String) :
    List TextChunk :=
  let ps := paragraphsOf text
  (List.range ps.length).map (fun i =>
    { textchunk_id := fresh i
      citation_id := cid
      text := ps.getD i ""
      «section» := "para_" ++ toString (i + 1)
      char_start := chunkOffset ps i
      char_end := chunkOffset ps (i + 1) })

/-- The title backfill of `process_citation`: when the title is falsy or
contains "Untitled", a second navigation reads the page title (`none`
models the caught navigation failure); an empty stripped page title keeps
the old title. -/
def maybeBackfillTitle (c : Citation) (pageTitle : Option String) : Citation :=
  if pyTruthy c.title = false ∨ containsSeq "Untitled".data (c.title.getD "").data then
    match pageTitle with
    | none => c
    | some t =>
      { c with title := if pyStrip t = "" then c.title else some (pyStrip t) }
  else c

/-- The `citation.update({...})` merge of `process_citation`: media_type is
set to `citation.get("source_type", "news")`, publisher falls back to the
page host (`urlparse(url).netloc.replace("www.", "")`, a parameter here),
access_date becomes the current timestamp, jurisdiction falls back to
"Canada", and the metadata map keeps prior keys while adding extraction
provenance. -/
def mergeCitationFields (c : Citation) (hostFallback : String)
    (nowTs : Micros) (wc : Nat) : Citation :=
  let base : Metadata := c.metadata.getD {}
  { c with
    media_type := c.source_type
    publisher := if pyTruthy c.publisher then c.publisher else some hostFallback
    access_date := .ts nowTs
    jurisdiction := if pyTruthy c.jurisdiction then c.jurisdiction
      else some "Canada"
    metadata := some
      { base with
        full_text_scraped := some true
        scraped_word_count := some wc
        serper_snippet :=
          match c.metadata with
          | some m => m.serper_snippet
          | none => none } }

/-- The per-citation task body of the ScrapeCoordinator after the
ContentExtractor call: gate on the 400-character floor, backfill the title,
merge derived fields into the citation copy and chunk the text. `none`
models a task that produces no result. -/
def process_citation (c : Citation) (text : Option String)
    (pageTitle : Option String) (hostFallback : String) (nowTs : Micros)
    (fresh : Nat → String) : Option (Citation × List TextChunk) :=
  match text with
  | none => none
  | some t =>
    if t = "" ∨ t.length < 400 then none
    else
      let c1 := maybeBackfillTitle c pageTitle
      let c2 := mergeCitationFields c1 hostFallback nowTs (wordCountOf t)
      some (c2, makeChunks fresh c2.citation_id t)

/-! ## Claims C9 and C3: chunking and the citation merge -/

/-- The chunk at index `i`: makeChunks is a map over paragraph indices. -/
theorem makeChunks_get (fresh : Nat → String) (cid text : String) (i : Nat)
    (hi : i < (makeChunks fresh cid text).length) :
    (makeChunks fresh cid text).get ⟨i, hi⟩ =
      { textchunk_id := fresh i
        citation_id := cid
        text := (paragraphsOf text).getD i ""
        «section» := "para_" ++ toString (i + 1)
        char_start := chunkOffset (paragraphsOf text) i
        char_end := chunkOffset (paragraphsOf text) (i + 1) } := by
  simp [makeChunks, List.get_eq_getElem, List.getElem_map, List.getElem_range]

/-- Offsets grow by the paragraph length plus the reinserted separator. -/
theorem chunkOffset_succ (ps : List String) (i : Nat) (hi : i < ps.length) :
    chunkOffset ps (i + 1) = chunkOffset ps i + ((ps.get ⟨i, hi⟩).length + 2) := by
  unfold chunkOffset
  rw [List.map_take, List.map_take,
    List.sum_take_succ _ i (by simpa using hi)]
  simp [List.get_eq_getElem]

/-- A map over the range of a list's length, reading elements, is the
list. -/
theorem range_map_getD {α : Type} (d : α) (l : List α) :
    (List.range l.length).map (fun i => l.getD i d) = l := by
  apply List.ext_get
  · simp
  · intro i h1 h2
    simp [List.get_eq_getElem, List.getElem_map, List.getElem_range,
      List.getD_eq_getElem?_getD, List.getElem?_eq_getElem h2]

/-- The chunk texts are exactly the kept paragraphs, in order. -/
theorem makeChunks_map_text (fresh : Nat → String) (cid text : String) :
    (makeChunks fresh cid text).map (fun ch => ch.text) = paragraphsOf text := by
  simp only [makeChunks, List.map_map]
  exact range_map_getD "" (paragraphsOf text)

/-- The chunk section labels are `para_1`, `para_2`, ... in order. -/
theorem makeChunks_map_sections (fresh : Nat → String) (cid text : String) :
    (makeChunks fresh cid text).map (fun ch => ch.«section»)
      = (List.range (paragraphsOf text).length).map
          (fun i => "para_" ++ toString (i + 1)) := by
  simp only [makeChunks, List.map_map]
  rfl

/-- The 90/40/120 scenario text: three blank-line-separated paragraphs of
90, 40 and 120 characters. -/
def para90 : String := String.mk (List.replicate 90 'a')

def para40 : String := String.mk (List.replicate 40 'b')

def para120 : String := String.mk (List.replicate 120 'c')

def demoText3 : String := para90 ++ "\n\n" ++ para40 ++ "\n\n" ++ para120

set_option maxRecDepth 100000 in
/-- C9: chunking splits the extracted text on blank-line boundaries, keeps
exactly the paragraphs whose trimmed length exceeds 80 characters (one
TextChunk per kept paragraph, in original order, with 1-based section
labels), and produces running char_start/char_end offsets that are
monotonically non-decreasing and non-overlapping across consecutive chunks;
the concrete 90/40/120-character three-paragraph text yields exactly 2
chunks labeled with sections 1 and 2. -/
theorem chunking_partition_and_scenario
    (fresh : Nat → String) (cid : String) (text : String) :
    (makeChunks fresh cid text).length = (paragraphsOf text).length ∧
    (makeChunks fresh cid text).map (fun ch => ch.text) = paragraphsOf text ∧
    (∀ i, ∀ hi : i < (makeChunks fresh cid text).length,
      ((makeChunks fresh cid text).get ⟨i, hi⟩).«section»
          = "para_" ++ toString (i + 1) ∧
      ((makeChunks fresh cid text).get ⟨i, hi⟩).char_start
        ≤ ((makeChunks fresh cid text).get ⟨i, hi⟩).char_end) ∧
    (∀ i, ∀ hi : i + 1 < (makeChunks fresh cid text).length,
      ((makeChunks fresh cid text).get ⟨i, Nat.lt_of_succ_lt hi⟩).char_end
        = ((makeChunks fresh cid text).get ⟨i + 1, hi⟩).char_start) ∧
    (makeChunks fresh cid demoText3).map (fun ch => ch.«section»)
        = ["para_1", "para_2"] ∧
    (makeChunks fresh cid demoText3).map (fun ch => ch.text.length)
        = [90, 120] := by
  have hlen : ∀ t : String,
      (makeChunks fresh cid t).length = (paragraphsOf t).length := by
    intro t; simp [makeChunks]
  have h2 : (paragraphsOf demoText3).length = 2 := by decide
  refine ⟨hlen text, makeChunks_map_text fresh cid text, ?_, ?_, ?_, ?_⟩
  · intro i hi
    rw [makeChunks_get]
    have hip : i < (paragraphsOf text).length := by rw [← hlen text]; exact hi
    refine ⟨rfl, ?_⟩
    show chunkOffset (paragraphsOf text) i
      ≤ chunkOffset (paragraphsOf text) (i + 1)
    rw [chunkOffset_succ (paragraphsOf text) i hip]
    omega
  · intro i hi
    rw [makeChunks_get, makeChunks_get]
  · rw [makeChunks_map_sections, h2]
    decide
  · have he : (fun ch : TextChunk => ch.text.length)
        = (String.length ∘ fun ch : TextChunk => ch.text) := rfl
    rw [he, ← List.map_map, makeChunks_map_text]
    decide

set_option maxRecDepth 100000 in
/-- Witness for C9: the adjacent-offset equality at a concrete chunked
text. -/
theorem chunking_partition_and_scenario_witness :
    ((makeChunks (fun _ => "tc") "C0001" demoText3).get
        ⟨0, by decide⟩).char_end
      = ((makeChunks (fun _ => "tc") "C0001" demoText3).get
        ⟨1, by decide⟩).char_start :=
  (chunking_partition_and_scenario (fun _ => "tc") "C0001" demoText3).2.2.2.1
    0 (by decide)

/-- The title backfill does not touch source_type. -/
theorem maybeBackfillTitle_source_type (c : Citation) (pt : Option String) :
    (maybeBackfillTitle c pt).source_type = c.source_type := by
  unfold maybeBackfillTitle
  split
  · cases pt
    · rfl
    · rfl
  · rfl

/-- C3 counterexample: the ScrapeCoordinator's field merge overwrites
media_type with the raw source_type, so a citation created by the builder
with source_type "news" and media_type "text" leaves the merge with
media_type "news", outside the set containing "text" and "video". -/
theorem media_type_merge_counterexample :
    (serper_results_to_citations (fun _ => none) [hitPX] "news" "2025-01-01"
        0 []).map
      (fun c => (mergeCitationFields c "e.x" 0 5).media_type) = ["news"] ∧
    ¬("news" = "text" ∨ "news" = "video") := by
  constructor
  · decide
  · decide

/-- C3 (amended): CitationBuilder derives media_type as "video" when
source_type is "videos" and "text" otherwise, so freshly built citations
always have media_type in the set containing "text" and "video"; but the
ScrapeCoordinator's field merge overwrites media_type with the citation's
raw source_type, so the derived value is preserved by the merge only when
source_type already equals it. -/
theorem media_type_derived_then_overwritten
    (parseAbs : String → Option ParsedDate) (st ad : String) (ref : Micros)
    (excl : List String) :
    (∀ results : List Hit,
      ∀ c ∈ serper_results_to_citations parseAbs results st ad ref excl,
        c.media_type = (if st = "videos" then "video" else "text") ∧
        (c.media_type = "text" ∨ c.media_type = "video")) ∧
    (∀ (c : Citation) (host : String) (now : Micros) (wc : Nat),
      (mergeCitationFields c host now wc).media_type = c.source_type) ∧
    (∀ (c : Citation) (text pageTitle : Option String) (host : String)
        (now : Micros) (fresh : Nat → String) (c2 : Citation)
        (chunks : List TextChunk),
      process_citation c text pageTitle host now fresh = some (c2, chunks) →
      c2.media_type = c.source_type) := by
  refine ⟨?_, fun c host now wc => rfl, ?_⟩
  · intro results c hc
    obtain ⟨k, hk, hceq⟩ :=
      citationsLoop_mem parseAbs st ad ref excl results 1 [] c hc
    constructor
    · rw [hceq]; rfl
    · rw [hceq]
      show (if st = "videos" then "video" else "text") = "text" ∨
        (if st = "videos" then "video" else "text") = "video"
      split
      · exact Or.inr rfl
      · exact Or.inl rfl
  · intro c text pageTitle host now fresh c2 chunks hp
    cases text with
    | none => simp [process_citation] at hp
    | some t =>
      simp only [process_citation] at hp
      split at hp
      · exact absurd hp (by simp)
      · injection hp with hpair
        obtain ⟨h2, h3⟩ := Prod.mk.inj hpair
        rw [← h2]
        exact maybeBackfillTitle_source_type c pageTitle

/-- Witness for the amended C3 at a concrete citation. -/
theorem media_type_derived_then_overwritten_witness :
    (mkCitation (fun _ => none) "news" "2025-01-01" 0 1 hitPX).media_type
        = "text" ∧
    (mergeCitationFields (mkCitation (fun _ => none) "news" "2025-01-01" 0 1
        hitPX) "e.x" 0 5).media_type
      = (mkCitation (fun _ => none) "news" "2025-01-01" 0 1
        hitPX).source_type := by
  have h := media_type_derived_then_overwritten (fun _ => none) "news"
    "2025-01-01" 0 []
  refine ⟨?_, h.2.1 _ "e.x" 0 5⟩
  have h1 := (h.1 [hitPX]
    (mkCitation (fun _ => none) "news" "2025-01-01" 0 1 hitPX) (by decide)).1
  rw [h1]
  decide

/-! ## QueryAggregator (`serper_search` in serper.py) -/

/-- The page-level dedup key: `item.get("link") or item.get("url")`. -/
def hitLink (h : Hit) : Option String := pyOr h.link h.url

/-- The inner accumulation over one page's items: append an item and record
its link only when the link is truthy and unseen. -/
def accumHits : List String → List Hit → List Hit → List String × List Hit
  | seen, acc, [] => (seen, acc)
  | seen, acc, h :: rest =>
    match hitLink h with
    | none => accumHits seen acc rest
    | some l =>
      if l ≠ "" ∧ l ∉ seen then accumHits (l :: seen) (acc ++ [h]) rest
      else accumHits seen acc rest

/-- The `while page <= max_page_count` pagination loop of `serper_search`,
parameterised by the HTTP transport `fetch` (`Except.error` models a raised
`requests.HTTPError` or any other caught exception; `Except.ok` models the
page's decoded result list). Returns the accumulated hits together with the
trace of requested page numbers. `fuel` is the number of pages the loop
condition still allows (`max_page_count - page + 1`). -/
def searchLoop (fetch : Nat → Except Unit (List Hit)) :
    Nat → Nat → List String → List Hit → List Hit × List Nat
  | 0, _, _, acc => (acc, [])
  | fuel + 1, page, seen, acc =>
    match fetch page with
    | .error _ => (acc, [page])
    | .ok newResults =>
      if newResults.isEmpty then (acc, [page])
      else
        let st := accumHits seen acc newResults
        if newResults.length < 10 then (st.2, [page])
        else
          let next := searchLoop fetch fuel (page + 1) st.1 st.2
          (next.1, page :: next.2)

/-- `serper_search(...)`: run the pagination loop from page 1 and convert
the accumulated hits through the CitationBuilder. The second component is
the trace of requested pages (an observation used to state the pagination
claims). -/
def serper_search (parseAbs : String → Option ParsedDate)
    (fetch : Nat → Except Unit (List Hit)) (search_type access_date : String)
    (reference_dt : Micros) (max_page_count : Nat)
    (exclude_publishers : List String) : List Citation × List Nat :=
  let res := searchLoop fetch max_page_count 1 [] []
  (serper_results_to_citations parseAbs res.1 search_type access_date
    reference_dt exclude_publishers, res.2)

/-- Loop lemma: the requested pages are consecutive from the starting page,
at most `fuel` many, at least one when fuel allows, and an early stop only
happens at a failing, empty or short page. -/
theorem searchLoop_trace (fetch : Nat → Except Unit (List Hit)) :
    ∀ (fuel page : Nat) (seen : List String) (acc : List Hit),
      ∃ k, k ≤ fuel ∧
        (searchLoop fetch fuel page seen acc).2 = List.range' page k ∧
        (0 < fuel → 0 < k) ∧
        (k < fuel →
          fetch (page + k - 1) = .error () ∨
          ∃ items, fetch (page + k - 1) = .ok items ∧
            (items = [] ∨ items.length < 10)) := by
  intro fuel
  induction fuel with
  | zero =>
    intro page seen acc
    exact ⟨0, le_refl 0, rfl, fun hcon => absurd hcon (lt_irrefl 0),
      fun hcon => absurd hcon (lt_irrefl 0)⟩
  | succ fuel ih =>
    intro page seen acc
    have hone : page + 1 - 1 = page := by omega
    cases hf : fetch page with
    | error e =>
      refine ⟨1, by omega, ?_, fun _ => by omega, fun _ => Or.inl ?_⟩
      · simp [searchLoop, hf]
      · rw [hone]
        cases e
        exact hf
    | ok items =>
      by_cases hempty : items.isEmpty
      · refine ⟨1, by omega, ?_, fun _ => by omega,
          fun _ => Or.inr ⟨items, ?_, Or.inl ?_⟩⟩
        · simp [searchLoop, hf, hempty]
        · rw [hone]; exact hf
        · exact List.isEmpty_iff.mp hempty
      · by_cases hlen : items.length < 10
        · refine ⟨1, by omega, ?_, fun _ => by omega,
            fun _ => Or.inr ⟨items, ?_, Or.inr hlen⟩⟩
          · simp [searchLoop, hf, hempty, hlen]
          · rw [hone]; exact hf
        · obtain ⟨k0, hk0, htr0, hpos0, hstop0⟩ := ih (page + 1)
            (accumHits seen acc items).1 (accumHits seen acc items).2
          refine ⟨k0 + 1, by omega, ?_, fun _ => by omega, ?_⟩
          · simp only [searchLoop, hf]
            rw [if_neg hempty, if_neg hlen]
            show page :: (searchLoop fetch fuel (page + 1) _ _).2 = _
            rw [htr0]
            rfl
          · intro hlt
            have hk0lt : k0 < fuel := by omega
            have hs := hstop0 hk0lt
            have hp0 : 0 < k0 := hpos0 (by omega)
            have harith : page + 1 + k0 - 1 = page + (k0 + 1) - 1 := by omega
            rwa [harith] at hs

/-- The page accumulation keeps the invariant: accumulated hits carry truthy
links recorded in the seen set, with no duplicate links; the seen set only
grows. -/
theorem accumHits_inv :
    ∀ (items : List Hit) (seen : List String) (acc : List Hit),
      (∀ h ∈ acc, ∃ l, hitLink h = some l ∧ l ≠ "" ∧ l ∈ seen) →
      (acc.map hitLink).Nodup →
      (∀ s ∈ seen, s ∈ (accumHits seen acc items).1) ∧
      (∀ h ∈ (accumHits seen acc items).2,
        ∃ l, hitLink h = some l ∧ l ≠ "" ∧ l ∈ (accumHits seen acc items).1) ∧
      ((accumHits seen acc items).2.map hitLink).Nodup := by
  intro items
  induction items with
  | nil =>
    intro seen acc hacc hnd
    exact ⟨fun s hs => hs, hacc, hnd⟩
  | cons h rest ih =>
    intro seen acc hacc hnd
    cases hl : hitLink h with
    | none =>
      simp only [accumHits, hl]
      exact ih seen acc hacc hnd
    | some l =>
      simp only [accumHits, hl]
      by_cases hcond : l ≠ "" ∧ l ∉ seen
      · rw [if_pos hcond]
        have hres := ih (l :: seen) (acc ++ [h]) ?hacc2 ?hnd2
        · exact ⟨fun s hs => hres.1 s (List.mem_cons_of_mem _ hs),
            hres.2.1, hres.2.2⟩
        case hacc2 =>
          intro h2 hm
          rcases List.mem_append.mp hm with hm2 | hm2
          · obtain ⟨l2, e1, e2, e3⟩ := hacc h2 hm2
            exact ⟨l2, e1, e2, List.mem_cons_of_mem _ e3⟩
          · have heq : h2 = h := List.mem_singleton.mp hm2
            rw [heq]
            exact ⟨l, hl, hcond.1, List.mem_cons_self _ _⟩
        case hnd2 =>
          rw [List.map_append]
          refine List.Nodup.append hnd (by simp) ?_
          intro a ha ha2
          obtain ⟨h2, hm2, he2⟩ := List.mem_map.mp ha
          obtain ⟨l2, e1, e2, e3⟩ := hacc h2 hm2
          have haeq : a = some l := by simpa [hl] using ha2
          rw [haeq] at he2
          rw [e1] at he2
          have : l2 = l := Option.some.inj he2
          exact hcond.2 (this ▸ e3)
      · rw [if_neg hcond]
        exact ih seen acc hacc hnd

/-- Loop lemma: accumulated hits carry truthy links with no duplicates
across pages. -/
theorem searchLoop_hits_inv (fetch : Nat → Except Unit (List Hit)) :
    ∀ (fuel page : Nat) (seen : List String) (acc : List Hit),
      (∀ h ∈ acc, ∃ l, hitLink h = some l ∧ l ≠ "" ∧ l ∈ seen) →
      (acc.map hitLink).Nodup →
      (∀ h ∈ (searchLoop fetch fuel page seen acc).1,
        ∃ l, hitLink h = some l ∧ l ≠ "") ∧
      ((searchLoop fetch fuel page seen acc).1.map hitLink).Nodup := by
  intro fuel
  induction fuel with
  | zero =>
    intro page seen acc hacc hnd
    exact ⟨fun h hm => (hacc h hm).imp (fun l hl => ⟨hl.1, hl.2.1⟩), hnd⟩
  | succ fuel ih =>
    intro page seen acc hacc hnd
    cases hf : fetch page with
    | error e =>
      simp only [searchLoop, hf]
      exact ⟨fun h hm => (hacc h hm).imp (fun l hl => ⟨hl.1, hl.2.1⟩), hnd⟩
    | ok items =>
      simp only [searchLoop, hf]
      split
      · exact ⟨fun h hm => (hacc h hm).imp (fun l hl => ⟨hl.1, hl.2.1⟩), hnd⟩
      · obtain ⟨hseen2, hacc2, hnd2⟩ := accumHits_inv items seen acc hacc hnd
        split
        · exact ⟨fun h hm => (hacc2 h hm).imp (fun l hl => ⟨hl.1, hl.2.1⟩),
            hnd2⟩
        · exact ih (page + 1) (accumHits seen acc items).1
            (accumHits seen acc items).2 hacc2 hnd2

/-- Ten hits with distinct truthy links: a full provider page. -/
def tenHits : List Hit :=
  (List.range 10).map (fun i => { link := some ("https://t.x/" ++ toString i) })

/-- A transport returning the same full page twice, then an empty page. -/
def fetchDup : Nat → Except Unit (List Hit) := fun p =>
  if p ≤ 2 then .ok tenHits else .ok []

/-- C6 counterexample: with `max_pages = 3`, page 2 returns ten items that
are all already seen — zero new items are accumulated — yet the loop still
requests page 3, because the early-stop conditions test the raw page size,
not the number of new items. -/
theorem pagination_zero_new_items_counterexample :
    (searchLoop fetchDup 3 1 [] []).2 = [1, 2, 3] ∧
    accumHits (accumHits [] [] tenHits).1 (accumHits [] [] tenHits).2 tenHits
      = accumHits [] [] tenHits := by
  constructor
  · decide
  · decide

/-- C6 (amended): for every `max_pages`, the loop issues at most `max_pages`
requests, for consecutive pages 1..k; it stops early (k < max_pages) only
when the last requested page failed, returned zero items, or returned fewer
than the provider's full-page size of 10 raw items (a full page of
already-seen links does not stop pagination); hits are accumulated across
pages only when their link is truthy and not already seen, so accumulated
links are distinct. -/
theorem pagination_bounds_and_stop
    (fetch : Nat → Except Unit (List Hit)) (maxPages : Nat) :
    ∃ k, k ≤ maxPages ∧
      (searchLoop fetch maxPages 1 [] []).2 = List.range' 1 k ∧
      (0 < maxPages → 0 < k) ∧
      (k < maxPages →
        fetch k = .error () ∨
        ∃ items, fetch k = .ok items ∧ (items = [] ∨ items.length < 10)) ∧
      (∀ h ∈ (searchLoop fetch maxPages 1 [] []).1,
        ∃ l, hitLink h = some l ∧ l ≠ "") ∧
      ((searchLoop fetch maxPages 1 [] []).1.map hitLink).Nodup := by
  obtain ⟨k, hk, htr, hpos, hstop⟩ := searchLoop_trace fetch maxPages 1 [] []
  have hinv := searchLoop_hits_inv fetch maxPages 1 [] [] (by simp) (by simp)
  refine ⟨k, hk, htr, hpos, ?_, hinv.1, hinv.2⟩
  intro hlt
  have hs := hstop hlt
  have e : 1 + k - 1 = k := by omega
  rwa [e] at hs

/-- Witness for the amended C6: the page trace of the duplicate-page
transport is consecutive from page 1. -/
theorem pagination_bounds_and_stop_witness :
    (searchLoop fetchDup 3 1 [] []).2 = List.range' 1 3 := by
  obtain ⟨k, hk, htr, hpos, hstop, hhits, hnd⟩ :=
    pagination_bounds_and_stop fetchDup 3
  have hlen : (searchLoop fetchDup 3 1 [] []).2.length = 3 := by decide
  rw [htr] at hlen
  simp only [List.length_range'] at hlen
  rw [htr, hlen]

/-- A transport returning one full page and then failing. -/
def fetchFailAt2 : Nat → Except Unit (List Hit) := fun p =>
  if p = 1 then .ok tenHits else .error ()

/-- C7: the pagination loop never lets a transport or HTTP-status failure
escape: the top-level search always returns the citations built from the
hits accumulated so far, and when the loop reaches a page whose fetch
fails, it aborts immediately and returns exactly the hits accumulated
before the failure. -/
theorem transport_failure_partial_results
    (parseAbs : String → Option ParsedDate)
    (fetch : Nat → Except Unit (List Hit)) (st ad : String) (ref : Micros)
    (maxPages : Nat) (excl : List String) :
    (serper_search parseAbs fetch st ad ref maxPages excl).1
      = serper_results_to_citations parseAbs
          (searchLoop fetch maxPages 1 [] []).1 st ad ref excl ∧
    (∀ (fuel page : Nat) (seen : List String) (acc : List Hit),
      fetch page = .error () →
      searchLoop fetch (fuel + 1) page seen acc = (acc, [page])) := by
  refine ⟨rfl, ?_⟩
  intro fuel page seen acc hf
  simp [searchLoop, hf]

/-- Witness for C7: the transport failing at page 2 aborts pagination there
and returns the ten hits gathered from page 1. -/
theorem transport_failure_partial_results_witness :
    searchLoop fetchFailAt2 (1 + 1) 2 [] tenHits = (tenHits, [2]) ∧
    (serper_search (fun _ => none) fetchFailAt2 "news" "2025-01-01" 0 3
        []).1
      = serper_results_to_citations (fun _ => none)
          (searchLoop fetchFailAt2 3 1 [] []).1 "news" "2025-01-01" 0 [] := by
  have h := transport_failure_partial_results (fun _ => none) fetchFailAt2
    "news" "2025-01-01" 0 3 []
  exact ⟨h.2 1 2 [] tenHits rfl, h.1⟩

/-! ## ContentExtractor (`fetch_article_content` in playwright_scrape.py) -/

/-- Strategy 1: the selector loop. Each list entry is the inner text of the
element matched by one selector (`none` when no element matched or the query
raised). `text_content` is overwritten by every found selector and the loop
breaks at the first found text that is truthy with stripped length above
200. -/
def strat1Loop : List (Option String) → Option String → Option String
  | [], tc => tc
  | none :: rest, tc => strat1Loop rest tc
  | some s :: rest, _ =>
    if s ≠ "" ∧ (pyStrip s).length > 200 then some s
    else strat1Loop rest (some s)

/-- Strategy 2's line filter: strip each paragraph text, drop empties, keep
those longer than 30 characters. -/
def strat2Lines (paras : List String) : List String :=
  (paras.map pyStrip).filter (fun t => t.length > 30)

/-- Python `"\n\n".join(lines)`. -/
def joinBB : List String → String
  | [] => ""
  | [x] => x
  | x :: rest => x ++ "\n\n" ++ joinBB rest

/-- The fallback condition `not text_content or
len(text_content.strip()) < 200`: the current text is falsy or its stripped
length is below 200. -/
def shortOrFalsy (tc : Option String) : Prop :=
  pyTruthy tc = false ∨ (pyStrip (tc.getD "")).length < 200

instance (tc : Option String) : Decidable (shortOrFalsy tc) := by
  unfold shortOrFalsy
  infer_instance

/-- The fallback chain: strategy 1 over the selectors, then — when the
current text is falsy or its stripped length is below 200 — strategy 2 over
the main-container paragraphs (`none` when no main container matched, which
leaves the previous text), then under the same condition strategy 3, the
whole-page text. -/
def chainChoice (sels : List (Option String)) (mainParas : Option (List String))
    (wholePage : String) : Option String :=
  let tc1 := strat1Loop sels none
  let tc2 :=
    if shortOrFalsy tc1 then
      match mainParas with
      | some paras => some (joinBB (strat2Lines paras))
      | none => tc1
    else tc1
  if shortOrFalsy tc2 then some wholePage
  else tc2

/-- `re.sub(r"\n[3,]", "\n\n", _)` emission: a pending run of `p` newlines
is emitted as two when `p` is 3 or more. -/
def emitNL (p : Nat) : List Char :=
  if p ≥ 3 then ['\n', '\n'] else List.replicate p '\n'

def collapseNLAux : List Char → Nat → List Char
  | [], p => emitNL p
  | c :: rest, p =>
    if c = '\n' then collapseNLAux rest (p + 1)
    else emitNL p ++ c :: collapseNLAux rest 0

/-- Collapse every maximal run of 3 or more newlines to exactly two. -/
def collapseNL (s : String) : String := String.mk (collapseNLAux s.data 0)

/-- Horizontal whitespace: the regex class of space and tab. -/
def isHS (c : Char) : Bool := c = ' ' || c = '\t'

def collapseHSAux : List Char → Bool → List Char
  | [], pending => if pending then [' '] else []
  | c :: rest, pending =>
    if isHS c then collapseHSAux rest true
    else (if pending then [' '] else []) ++ c :: collapseHSAux rest false

/-- Collapse every maximal run of spaces and tabs to a single space. -/
def collapseHS (s : String) : String := String.mk (collapseHSAux s.data false)

/-- The post-processing of `fetch_article_content`: first the newline
collapse, then the horizontal-whitespace collapse. -/
def cleanText (s : String) : String := collapseHS (collapseNL s)

/-- `fetch_article_content(url, browser, timeout)` with the page
interactions parameterised: strip the chain's choice (empty when it is
falsy), clean it, and return it only when the cleaned length exceeds 200. -/
def fetch_article_content (sels : List (Option String))
    (mainParas : Option (List String)) (wholePage : String) : Option String :=
  let tc := chainChoice sels mainParas wholePage
  let full0 := if pyTruthy tc then pyStrip (tc.getD "") else ""
  let cleaned := cleanText full0
  if cleaned.length > 200 then some cleaned else none

/-- Three consecutive newlines occur somewhere. -/
def hasTripleNL : List Char → Bool
  | a :: b :: c :: rest =>
    (a = '\n' && b = '\n' && c = '\n') || hasTripleNL (b :: c :: rest)
  | _ => false

/-- Two consecutive horizontal-whitespace characters occur somewhere. -/
def hasHSRun : List Char → Bool
  | a :: b :: rest => (isHS a && isHS b) || hasHSRun (b :: rest)
  | _ => false

def hasTab (cs : List Char) : Bool := cs.any (fun c => c = '\t')

/-- Length of the leading newline run. -/
def leadNL : List Char → Nat
  | [] => 0
  | c :: rest => if c = '\n' then leadNL rest + 1 else 0

/-! ## Claim C8: cleaning lemmas -/

/-- A non-newline head does not affect the triple-newline test. -/
theorem hasTripleNL_cons_ne (a : Char) (L : List Char) (ha : ¬(a = '\n')) :
    hasTripleNL (a :: L) = hasTripleNL L := by
  match L with
  | [] => simp [hasTripleNL]
  | [b] => simp [hasTripleNL]
  | b :: c :: R => simp [hasTripleNL, ha]

/-- The triple-newline test is monotone under dropping the head. -/
theorem hasTripleNL_tail (a : Char) (L : List Char)
    (h : hasTripleNL (a :: L) = false) : hasTripleNL L = false := by
  match L with
  | [] => rfl
  | [b] => rfl
  | b :: c :: R =>
    simp only [hasTripleNL, Bool.or_eq_false_iff] at h
    exact h.2

/-- A leading newline run of length two exposes the two newlines. -/
theorem leadNL_ge_two (L : List Char) (h : 2 ≤ leadNL L) :
    ∃ R, L = '\n' :: '\n' :: R := by
  match L with
  | [] => simp [leadNL] at h
  | c :: rest =>
    by_cases hc : c = '\n'
    · subst hc
      match rest with
      | [] => simp [leadNL] at h
      | d :: R2 =>
        by_cases hd : d = '\n'
        · subst hd
          exact ⟨R2, rfl⟩
        · simp [leadNL, hd] at h
    · simp [leadNL, hc] at h

/-- Prepending a newline to a list with no triple run and a leading run of
at most one newline keeps the triple test false. -/
theorem hasTripleNL_nl_cons_false (L : List Char) (h1 : leadNL L ≤ 1)
    (h2 : hasTripleNL L = false) : hasTripleNL ('\n' :: L) = false := by
  match L with
  | [] => rfl
  | [d] => rfl
  | d :: e :: R =>
    by_cases hd : d = '\n'
    · subst hd
      have he : ¬(e = '\n') := by
        intro he
        subst he
        simp [leadNL] at h1
      simp [hasTripleNL, he, h2]
    · simp [hasTripleNL, hd, h2]

/-- A false triple test after a newline bounds the following leading run. -/
theorem leadNL_le_of_triple_false (L : List Char)
    (h : hasTripleNL ('\n' :: L) = false) : leadNL L ≤ 1 := by
  by_contra hcon
  push_neg at hcon
  obtain ⟨R, rfl⟩ := leadNL_ge_two L (by omega)
  simp [hasTripleNL] at h

/-- The emitted newline run never contains three newlines. -/
theorem hasTripleNL_emitNL (p : Nat) : hasTripleNL (emitNL p) = false := by
  unfold emitNL
  split
  · rfl
  · rename_i hp
    have h3 : p = 0 ∨ p = 1 ∨ p = 2 := by omega
    rcases h3 with rfl | rfl | rfl
    · rfl
    · rfl
    · rfl

/-- Emitting a pending run followed by a non-newline head preserves a false
triple test. -/
theorem noTriple_append_emit (p : Nat) (c : Char) (L : List Char)
    (hc : ¬(c = '\n')) (hL : hasTripleNL L = false) :
    hasTripleNL (emitNL p ++ c :: L) = false := by
  have hcL : hasTripleNL (c :: L) = false := by
    rw [hasTripleNL_cons_ne c L hc]
    exact hL
  have hone : hasTripleNL ('\n' :: c :: L) = false := by
    apply hasTripleNL_nl_cons_false
    · simp [leadNL, hc]
    · exact hcL
  have htwo : hasTripleNL ('\n' :: '\n' :: c :: L) = false := by
    apply hasTripleNL_nl_cons_false
    · simp [leadNL, hc]
    · exact hone
  unfold emitNL
  split
  · exact htwo
  · rename_i hp
    have h3 : p = 0 ∨ p = 1 ∨ p = 2 := by omega
    rcases h3 with rfl | rfl | rfl
    · simpa using hcL
    · simpa using hone
    · simpa using htwo

/-- The newline collapse never produces three consecutive newlines. -/
theorem collapseNL_noTriple :
    ∀ (cs : List Char) (p : Nat), hasTripleNL (collapseNLAux cs p) = false := by
  intro cs
  induction cs with
  | nil => intro p; exact hasTripleNL_emitNL p
  | cons c rest ih =>
    intro p
    by_cases hc : c = '\n'
    · simp only [collapseNLAux, if_pos hc]
      exact ih (p + 1)
    · simp only [collapseNLAux, if_neg hc]
      exact noTriple_append_emit p c _ hc (ih 0)

/-- A non-horizontal-whitespace head does not affect the run test. -/
theorem hasHSRun_cons_ne (a : Char) (L : List Char) (ha : isHS a = false) :
    hasHSRun (a :: L) = hasHSRun L := by
  match L with
  | [] => simp [hasHSRun]
  | b :: R => simp [hasHSRun, ha]

/-- The horizontal-whitespace collapse leaves no adjacent pair of spaces or
tabs, and no tab at all. -/
theorem collapseHS_clean :
    ∀ (cs : List Char) (pending : Bool),
      hasHSRun (collapseHSAux cs pending) = false ∧
      hasTab (collapseHSAux cs pending) = false := by
  intro cs
  induction cs with
  | nil =>
    intro pending
    cases pending
    · exact ⟨rfl, rfl⟩
    · exact ⟨rfl, rfl⟩
  | cons c rest ih =>
    intro pending
    by_cases hc : isHS c
    · simp only [collapseHSAux, if_pos hc]
      exact ih true
    · have hcfalse : isHS c = false := by simpa using hc
      have hctab : ¬(c = '\t') := by
        intro habs
        rw [habs] at hcfalse
        simp [isHS] at hcfalse
      have ihf := ih false
      have hcr : hasHSRun (c :: collapseHSAux rest false) = false := by
        rw [hasHSRun_cons_ne c _ hcfalse]
        exact ihf.1
      have hct : hasTab (c :: collapseHSAux rest false) = false := by
        simp only [hasTab, List.any_cons, Bool.or_eq_false_iff]
        exact ⟨by simpa using hctab, ihf.2⟩
      cases pending
      · simp only [collapseHSAux, if_neg hc]
        exact ⟨hcr, hct⟩
      · simp only [collapseHSAux, if_neg hc]
        constructor
        · show hasHSRun (' ' :: c :: collapseHSAux rest false) = false
          simp only [hasHSRun, hcfalse, Bool.and_false, Bool.false_or]
          rw [hasHSRun_cons_ne c _ hcfalse]
          exact ihf.1
        · show hasTab (' ' :: c :: collapseHSAux rest false) = false
          simp only [hasTab, List.any_cons, Bool.or_eq_false_iff]
          exact ⟨by decide, by simpa [hasTab] using hct⟩

/-- The collapse keeps the leading newline run bounded: with a pending
space the output starts with a space, otherwise the leading run can only
shrink. -/
theorem collapseHS_leadNL :
    ∀ (cs : List Char),
      leadNL (collapseHSAux cs true) = 0 ∧
      leadNL (collapseHSAux cs false) ≤ leadNL cs := by
  intro cs
  induction cs with
  | nil => exact ⟨rfl, Nat.le_refl 0⟩
  | cons c rest ih =>
    by_cases hc : isHS c
    · constructor
      · simp only [collapseHSAux, if_pos hc]
        exact ih.1
      · simp only [collapseHSAux, if_pos hc]
        rw [ih.1]
        exact Nat.zero_le _
    · constructor
      · simp only [collapseHSAux, if_neg hc]
        show leadNL (' ' :: c :: collapseHSAux rest false) = 0
        simp [leadNL]
      · simp only [collapseHSAux, if_neg hc]
        show leadNL (c :: collapseHSAux rest false) ≤ leadNL (c :: rest)
        by_cases hcn : c = '\n'
        · subst hcn
          have h2 := ih.2
          simp [leadNL]
          omega
        · simp [leadNL, hcn]

/-- The horizontal-whitespace collapse preserves the absence of triple
newlines. -/
theorem collapseHS_preserves_noTriple :
    ∀ (cs : List Char) (pending : Bool), hasTripleNL cs = false →
      hasTripleNL (collapseHSAux cs pending) = false := by
  intro cs
  induction cs with
  | nil =>
    intro pending _
    cases pending
    · rfl
    · rfl
  | cons c rest ih =>
    intro pending h
    have htail : hasTripleNL rest = false := hasTripleNL_tail c rest h
    by_cases hc : isHS c
    · simp only [collapseHSAux, if_pos hc]
      exact ih true htail
    · by_cases hcn : c = '\n'
      · subst hcn
        have hlead : leadNL rest ≤ 1 := leadNL_le_of_triple_false rest h
        have hmain : hasTripleNL ('\n' :: collapseHSAux rest false) = false := by
          apply hasTripleNL_nl_cons_false
          · calc leadNL (collapseHSAux rest false)
                ≤ leadNL rest := (collapseHS_leadNL rest).2
              _ ≤ 1 := hlead
          · exact ih false htail
        cases pending
        · simp only [collapseHSAux, if_neg hc]
          exact hmain
        · simp only [collapseHSAux, if_neg hc]
          show hasTripleNL (' ' :: '\n' :: collapseHSAux rest false) = false
          rw [hasTripleNL_cons_ne ' ' _ (by decide)]
          exact hmain
      · have hmain : hasTripleNL (c :: collapseHSAux rest false) = false := by
          rw [hasTripleNL_cons_ne c _ hcn]
          exact ih false htail
        cases pending
        · simp only [collapseHSAux, if_neg hc]
          exact hmain
        · simp only [collapseHSAux, if_neg hc]
          show hasTripleNL (' ' :: c :: collapseHSAux rest false) = false
          rw [hasTripleNL_cons_ne ' ' _ (by decide)]
          exact hmain

/-- The cleaned text has no run of 3 or more newlines (they were collapsed
to exactly 2), no adjacent pair of horizontal whitespace, and no tab. -/
theorem cleanText_props (s : String) :
    hasTripleNL (cleanText s).data = false ∧
    hasHSRun (cleanText s).data = false ∧
    hasTab (cleanText s).data = false := by
  show hasTripleNL (collapseHSAux (collapseNL s).data false) = false ∧
    hasHSRun (collapseHSAux (collapseNL s).data false) = false ∧
    hasTab (collapseHSAux (collapseNL s).data false) = false
  refine ⟨?_, (collapseHS_clean (collapseNL s).data false).1,
    (collapseHS_clean (collapseNL s).data false).2⟩
  apply collapseHS_preserves_noTriple
  show hasTripleNL (collapseNLAux s.data 0) = false
  exact collapseNL_noTriple s.data 0

/-- Strategy 1 either leaves the incoming text or returns the inner text of
one of the matched selectors. -/
theorem strat1Loop_cases :
    ∀ (sels : List (Option String)) (tc : Option String),
      strat1Loop sels tc = tc ∨
      ∃ s, some s ∈ sels ∧ strat1Loop sels tc = some s := by
  intro sels
  induction sels with
  | nil => intro tc; exact Or.inl rfl
  | cons o rest ih =>
    intro tc
    cases o with
    | none =>
      simp only [strat1Loop]
      rcases ih tc with h | ⟨s, hm, he⟩
      · exact Or.inl h
      · exact Or.inr ⟨s, List.mem_cons_of_mem _ hm, he⟩
    | some s0 =>
      simp only [strat1Loop]
      split
      · exact Or.inr ⟨s0, List.mem_cons_self _ _, rfl⟩
      · rcases ih (some s0) with h | ⟨s, hm, he⟩
        · exact Or.inr ⟨s0, List.mem_cons_self _ _, h⟩
        · exact Or.inr ⟨s, List.mem_cons_of_mem _ hm, he⟩


/-- `shortOrFalsy` holds of `none`. -/
theorem shortOrFalsy_none : shortOrFalsy none := Or.inl rfl

/-- The fallback chain always selects one of: the whole-page text, a
selector text, or the joined strategy-2 paragraphs. -/
theorem chainChoice_cases (sels : List (Option String))
    (mainParas : Option (List String)) (wholePage : String) :
    chainChoice sels mainParas wholePage = some wholePage ∨
    (∃ s, some s ∈ sels ∧ chainChoice sels mainParas wholePage = some s) ∨
    (∃ ps, mainParas = some ps ∧
      chainChoice sels mainParas wholePage
        = some (joinBB (strat2Lines ps))) := by
  rcases strat1Loop_cases sels none with h1 | ⟨s, hm, h1⟩
  · cases hmp : mainParas with
    | none =>
      refine Or.inl ?_
      simp only [chainChoice, h1]
      rw [if_pos shortOrFalsy_none, if_pos shortOrFalsy_none]
    | some ps =>
      by_cases hfin : shortOrFalsy (some (joinBB (strat2Lines ps)))
      · refine Or.inl ?_
        simp only [chainChoice, h1]
        rw [if_pos shortOrFalsy_none, if_pos hfin]
      · refine Or.inr (Or.inr ⟨ps, rfl, ?_⟩)
        simp only [chainChoice, h1]
        rw [if_pos shortOrFalsy_none, if_neg hfin]
  · by_cases hcond : shortOrFalsy (some s)
    · cases hmp : mainParas with
      | none =>
        refine Or.inl ?_
        simp only [chainChoice, h1]
        rw [if_pos hcond, if_pos hcond]
      | some ps =>
        by_cases hfin : shortOrFalsy (some (joinBB (strat2Lines ps)))
        · refine Or.inl ?_
          simp only [chainChoice, h1]
          rw [if_pos hcond, if_pos hfin]
        · refine Or.inr (Or.inr ⟨ps, rfl, ?_⟩)
          simp only [chainChoice, h1]
          rw [if_pos hcond, if_neg hfin]
    · refine Or.inr (Or.inl ⟨s, hm, ?_⟩)
      simp only [chainChoice, h1]
      rw [if_neg hcond, if_neg hcond]

/-- The final length gate: a returned text is the cleaned text and exceeds
200 characters. -/
theorem clean_gate {f t : String}
    (ht : (if (cleanText f).length > 200 then some (cleanText f) else none)
      = some t) : t = cleanText f ∧ t.length > 200 := by
  split at ht
  · rename_i hgt
    injection ht with hteq
    exact ⟨hteq.symm, hteq ▸ hgt⟩
  · exact absurd ht (by simp)

/-- When the chain's selected candidate cleans to at most 200 characters,
the extractor returns `none`. -/
theorem fetch_none_of_short (sels : List (Option String))
    (mainParas : Option (List String)) (wholePage : String) (x : String)
    (hch : chainChoice sels mainParas wholePage = some x)
    (hle : (cleanText (pyStrip x)).length ≤ 200) :
    fetch_article_content sels mainParas wholePage = none := by
  simp only [fetch_article_content, hch]
  by_cases htr : pyTruthy (some x) = true
  · rw [if_pos htr]
    simp only [Option.getD_some]
    rw [if_neg (by omega)]
  · rw [if_neg htr]
    rw [if_neg (by decide)]

/-- C8 (amended): the extractor returns `none` whenever every strategy
candidate — each found selector text, the joined strategy-2 paragraphs, and
the whole-page text — cleans to at most 200 characters; and every non-null
result has cleaned length above 200, no run of 3 or more consecutive
newlines (they are collapsed to exactly 2), and no tab or adjacent pair of
horizontal whitespace (runs are collapsed to a single space). The converse
of the first part does not hold as stated in the claim: the chain stops at
the first strategy whose raw stripped length exceeds 200 even when its
cleaned length is at most 200, so a later strategy with more text may never
be consulted. -/
theorem content_extractor_cleaning_and_floor (sels : List (Option String))
    (mainParas : Option (List String)) (wholePage : String) :
    ((∀ s, some s ∈ sels → (cleanText (pyStrip s)).length ≤ 200) →
     (∀ ps, mainParas = some ps →
        (cleanText (pyStrip (joinBB (strat2Lines ps)))).length ≤ 200) →
     (cleanText (pyStrip wholePage)).length ≤ 200 →
     fetch_article_content sels mainParas wholePage = none) ∧
    (∀ t, fetch_article_content sels mainParas wholePage = some t →
      t.length > 200 ∧ hasTripleNL t.data = false ∧
      hasHSRun t.data = false ∧ hasTab t.data = false) := by
  constructor
  · intro hsel hmain hwhole
    rcases chainChoice_cases sels mainParas wholePage with hch | ⟨s, hm, hch⟩ |
      ⟨ps, hmp, hch⟩
    · exact fetch_none_of_short sels mainParas wholePage _ hch hwhole
    · exact fetch_none_of_short sels mainParas wholePage _ hch (hsel s hm)
    · exact fetch_none_of_short sels mainParas wholePage _ hch (hmain ps hmp)
  · intro t ht
    simp only [fetch_article_content] at ht
    split at ht
    · obtain ⟨hteq, hlen⟩ := clean_gate ht
      rw [hteq]
      exact ⟨hteq ▸ hlen, (cleanText_props _).1, (cleanText_props _).2.1,
        (cleanText_props _).2.2⟩
    · obtain ⟨hteq, hlen⟩ := clean_gate ht
      rw [hteq]
      exact ⟨hteq ▸ hlen, (cleanText_props _).1, (cleanText_props _).2.1,
        (cleanText_props _).2.2⟩

/-- A selector text whose raw stripped length exceeds 200 but whose cleaned
length is tiny: a letter, 300 spaces, a letter. -/
def sBig : String := String.mk ('a' :: (List.replicate 300 ' ' ++ ['a']))

/-- A whole-page text that would clean to 201 characters. -/
def s3Big : String := String.mk (List.replicate 201 'x')

set_option maxRecDepth 100000 in
/-- C8 counterexample: the maximal extracted text across the three
strategies cleans to more than 200 characters (strategy 3 yields 201), yet
the extractor returns `none`: strategy 1's text has stripped length 302, so
the chain accepts it and never consults strategy 3, and its cleaned length
is 3. -/
theorem extractor_nonnull_otherwise_counterexample :
    fetch_article_content [some sBig] none s3Big = none ∧
    (cleanText (pyStrip s3Big)).length > 200 := by
  constructor
  · decide
  · decide

/-- A clean whole-page text of 250 characters. -/
def wBig : String := String.mk (List.replicate 250 'y')

set_option maxRecDepth 100000 in
/-- Witness for the amended C8: a page where every candidate is short is
rejected, and a 250-character whole-page extraction passes the floor with
the cleaning properties. -/
theorem content_extractor_cleaning_and_floor_witness :
    fetch_article_content [some "tiny"] none "short page" = none ∧
    (wBig.length > 200 ∧ hasTripleNL wBig.data = false ∧
      hasHSRun wBig.data = false ∧ hasTab wBig.data = false) := by
  constructor
  · refine (content_extractor_cleaning_and_floor [some "tiny"] none
      "short page").1 ?_ ?_ ?_
    · intro s hs
      simp only [List.mem_singleton, Option.some.injEq] at hs
      rw [hs]
      decide
    · intro ps hps
      exact absurd hps (by simp)
    · decide
  · exact (content_extractor_cleaning_and_floor [] none wBig).2 wBig
      (by decide)
